import Mathlib

/-!
# Verification of the evoformer attention backward kernel

Shallow embedding of `csrc/deepspeed4science/evoformer_attn/kernel_backward.h`
(`AttentionBackwardKernel`).  Matrix values are modelled over `ℚ`; the
exponential applied by the log-sum-exp epilogue and the storage-type
conversions are abstracted as function parameters, so every definition stays
executable.  Device-wide loops are modelled by an explicit fuelled `for` loop
combinator that mirrors the `for (; i < end; i += step)` pattern of the
source.
-/

namespace EvoBackward

/-- Fuelled rendering of the C `for (; start < stop; start += step)` loop.
Returns the list of loop-counter values of the executed iterations together
with the final value of the loop counter. -/
def forLoop (start stop step : ℕ) : ℕ → List ℕ × ℕ
  | 0 => ([], start)
  | fuel + 1 =>
    if start < stop then
      let r := forLoop (start + step) stop step fuel
      (start :: r.1, r.2)
    else ([], start)

/-- `ceil_div` from the kernel utilities: ⌈a / b⌉ on naturals. -/
def ceilDiv (a b : ℕ) : ℕ := (a + b - 1) / b

/-- `align_up`: round `a` up to the next multiple of `b`. -/
def align_up (a b : ℕ) : ℕ := ceilDiv a b * b

/-! ## C9: workspace sizing (`Params::workspace_*`, lines 398–428) -/

/-- `kOutputInRF`: dK/dV accumulated in registers (line 436). -/
def kOutputInRF (isHalf : Bool) (kMaxK kBlockSizeI : ℕ) : Bool :=
  isHalf && decide (kMaxK ≤ kBlockSizeI)

/-- `kNeedsAccumGradQ` (line 457): `output_accum_t` (`float`) differs from
`output_t` (= `scalar_t`), i.e. the scalar type is a 16-bit type. -/
def kNeedsAccumGradQ (isHalf : Bool) : Bool := isHalf

/-- `kNeedsAccumGradK` (line 459). -/
def kNeedsAccumGradK (isHalf : Bool) (kMaxK kBlockSizeI : ℕ) : Bool :=
  !kOutputInRF isHalf kMaxK kBlockSizeI && isHalf

/-- `kNeedsAccumGradV` (line 461). -/
def kNeedsAccumGradV (isHalf : Bool) (kMaxK kBlockSizeI : ℕ) : Bool :=
  !kOutputInRF isHalf kMaxK kBlockSizeI && isHalf

/-- `Params::workspace_elements_gk` (line 398). -/
def workspace_elements_gk (needsAccumGradK : Bool)
    (num_keys head_dim kBlockSizeI kBlockSizeJ : ℕ) : ℕ :=
  if !needsAccumGradK then 0
  else align_up num_keys kBlockSizeJ * align_up head_dim kBlockSizeI

/-- `Params::workspace_elements_gv` (line 404). -/
def workspace_elements_gv (needsAccumGradV : Bool)
    (num_keys head_dim_value kBlockSizeI kBlockSizeJ : ℕ) : ℕ :=
  if !needsAccumGradV then 0
  else align_up num_keys kBlockSizeJ * align_up head_dim_value kBlockSizeI

/-- `Params::workspace_elements_gq` (line 410). -/
def workspace_elements_gq (needsAccumGradQ : Bool)
    (num_queries num_keys head_dim kBlockSizeI kBlockSizeJ : ℕ) : ℕ :=
  if !needsAccumGradQ then 0
  else if num_keys ≤ kBlockSizeJ then 0
  else align_up num_queries kBlockSizeI * align_up head_dim kBlockSizeJ

/-- `Params::workspace_strideBH` (line 417): per-(batch, head) stride of the
workspace, aligned on 128 bits (4 floats). -/
def workspace_strideBH (needsAccumGradQ needsAccumGradK needsAccumGradV : Bool)
    (num_queries num_keys head_dim head_dim_value kBlockSizeI kBlockSizeJ : ℕ) : ℕ :=
  align_up
    (workspace_elements_gk needsAccumGradK num_keys head_dim kBlockSizeI kBlockSizeJ +
      workspace_elements_gv needsAccumGradV num_keys head_dim_value kBlockSizeI kBlockSizeJ +
      workspace_elements_gq needsAccumGradQ num_queries num_keys head_dim kBlockSizeI kBlockSizeJ)
    4

/-- `Params::workspace_size` (line 424), in bytes (`sizeof(float)` = 4). -/
def workspace_size (needsAccumGradQ needsAccumGradK needsAccumGradV : Bool)
    (num_batches num_heads num_queries num_keys head_dim head_dim_value
      kBlockSizeI kBlockSizeJ : ℕ) : ℕ :=
  num_batches * num_heads *
    workspace_strideBH needsAccumGradQ needsAccumGradK needsAccumGradV
      num_queries num_keys head_dim head_dim_value kBlockSizeI kBlockSizeJ * 4

/-- Claim-side workspace formula of C9, written exactly as the claim states
it: `num_batches * num_heads * align_up(E_gk + E_gv + E_gq, 4) * sizeof(float)`
with the three per-accumulator padded plane sizes. -/
def claimWorkspaceSize (needsAccumGradQ needsAccumGradK needsAccumGradV : Bool)
    (num_batches num_heads num_queries num_keys head_dim head_dim_value
      tileI tileJ : ℕ) : ℕ :=
  let e_gk := if needsAccumGradK then align_up num_keys tileJ * align_up head_dim tileI else 0
  let e_gv :=
    if needsAccumGradV then align_up num_keys tileJ * align_up head_dim_value tileI else 0
  let e_gq :=
    if needsAccumGradQ && decide (tileJ < num_keys) then
      align_up num_queries tileI * align_up head_dim tileJ
    else 0
  num_batches * num_heads * align_up (e_gk + e_gv + e_gq) 4 * 4

/-! ## C8: launch-time validation (`check_supported`, lines 1022–1062) -/

/-- The dimension, stride and dropout parameters consulted by
`check_supported` (a fragment of `AttentionBackwardKernel::Params`).
Pointers are byte addresses. -/
structure Params where
  query_ptr : ℕ
  key_ptr : ℕ
  value_ptr : ℕ
  output_ptr : ℕ
  grad_output_ptr : ℕ
  lse_strideB : ℤ
  lse_strideH : ℤ
  q_strideH : ℤ
  k_strideH : ℤ
  v_strideH : ℤ
  q_strideB : ℤ
  k_strideB : ℤ
  v_strideB : ℤ
  q_strideM : ℤ
  k_strideM : ℤ
  v_strideM : ℤ
  dropout_prob : ℚ
  head_dim : ℤ
  head_dim_value : ℤ
  num_queries : ℤ
  num_keys : ℤ
  num_heads : ℤ
  num_batches : ℤ

/-- Modelled from the spec: the `CHECK_ALIGNED_PTR` macro (defined outside this
file) — "all pointers aligned to the minimum vector-access width for the
selected datatype". -/
def CHECK_ALIGNED_PTR (ptr a : ℕ) : Prop := ptr % a = 0

instance (ptr a : ℕ) : Decidable (CHECK_ALIGNED_PTR ptr a) := by
  unfold CHECK_ALIGNED_PTR; infer_instance

/-- `check_supported` (line 1022): the conjunction of every `EVOFORMER_CHECK`
in source order. -/
def check_supported (kApplyDropout : Bool) (kMinimumAlignment : ℕ) (kMaxK : ℤ)
    (p : Params) : Prop :=
  CHECK_ALIGNED_PTR p.query_ptr kMinimumAlignment ∧
  CHECK_ALIGNED_PTR p.key_ptr kMinimumAlignment ∧
  CHECK_ALIGNED_PTR p.value_ptr kMinimumAlignment ∧
  CHECK_ALIGNED_PTR p.output_ptr kMinimumAlignment ∧
  CHECK_ALIGNED_PTR p.grad_output_ptr kMinimumAlignment ∧
  p.lse_strideH % 8 = 0 ∧
  p.lse_strideB % 8 = 0 ∧
  (p.num_heads ≤ 1 ∨ p.q_strideH % (kMinimumAlignment : ℤ) = 0) ∧
  (p.num_heads ≤ 1 ∨ p.k_strideH % (kMinimumAlignment : ℤ) = 0) ∧
  (p.num_heads ≤ 1 ∨ p.v_strideH % (kMinimumAlignment : ℤ) = 0) ∧
  (p.num_batches ≤ 1 ∨ p.q_strideB % (kMinimumAlignment : ℤ) = 0) ∧
  (p.num_batches ≤ 1 ∨ p.k_strideB % (kMinimumAlignment : ℤ) = 0) ∧
  (p.num_batches ≤ 1 ∨ p.v_strideB % (kMinimumAlignment : ℤ) = 0) ∧
  p.q_strideM % (kMinimumAlignment : ℤ) = 0 ∧
  p.k_strideM % (kMinimumAlignment : ℤ) = 0 ∧
  p.v_strideM % (kMinimumAlignment : ℤ) = 0 ∧
  p.dropout_prob ≤ 1 ∧
  0 ≤ p.dropout_prob ∧
  (kApplyDropout = true ∨ p.dropout_prob = 0) ∧
  0 < p.head_dim ∧
  0 < p.head_dim_value ∧
  0 < p.num_queries ∧
  0 < p.num_keys ∧
  0 < p.num_heads ∧
  0 < p.num_batches ∧
  p.head_dim ≤ kMaxK ∧
  p.head_dim_value ≤ kMaxK

instance (ka : Bool) (al : ℕ) (mk : ℤ) (p : Params) :
    Decidable (check_supported ka al mk p) := by
  unfold check_supported; infer_instance

/-- The precondition list exactly as claim C8 states it: pointer alignment,
LogSumExp stride alignment, per-row stride alignment, dropout range and
consistency, strict positivity of all dimension counts, and the `kMaxK`
bounds. -/
def claimPreconditionsC8 (kApplyDropout : Bool) (kMinimumAlignment : ℕ) (kMaxK : ℤ)
    (p : Params) : Prop :=
  CHECK_ALIGNED_PTR p.query_ptr kMinimumAlignment ∧
  CHECK_ALIGNED_PTR p.key_ptr kMinimumAlignment ∧
  CHECK_ALIGNED_PTR p.value_ptr kMinimumAlignment ∧
  CHECK_ALIGNED_PTR p.output_ptr kMinimumAlignment ∧
  CHECK_ALIGNED_PTR p.grad_output_ptr kMinimumAlignment ∧
  p.lse_strideB % 8 = 0 ∧
  p.lse_strideH % 8 = 0 ∧
  p.q_strideM % (kMinimumAlignment : ℤ) = 0 ∧
  p.k_strideM % (kMinimumAlignment : ℤ) = 0 ∧
  p.v_strideM % (kMinimumAlignment : ℤ) = 0 ∧
  0 ≤ p.dropout_prob ∧
  p.dropout_prob ≤ 1 ∧
  (kApplyDropout = true ∨ p.dropout_prob = 0) ∧
  0 < p.head_dim ∧
  0 < p.head_dim_value ∧
  0 < p.num_queries ∧
  0 < p.num_keys ∧
  0 < p.num_heads ∧
  0 < p.num_batches ∧
  p.head_dim ≤ kMaxK ∧
  p.head_dim_value ≤ kMaxK

instance (ka : Bool) (al : ℕ) (mk : ℤ) (p : Params) :
    Decidable (claimPreconditionsC8 ka al mk p) := by
  unfold claimPreconditionsC8; infer_instance

/-- A parameter set satisfying every precondition that claim C8 lists, yet
rejected by `check_supported`: two heads with a misaligned per-head query
stride. -/
def paramsC8 : Params where
  query_ptr := 0
  key_ptr := 0
  value_ptr := 0
  output_ptr := 0
  grad_output_ptr := 0
  lse_strideB := 8
  lse_strideH := 8
  q_strideH := 1
  k_strideH := 4
  v_strideH := 4
  q_strideB := 4
  k_strideB := 4
  v_strideB := 4
  q_strideM := 4
  k_strideM := 4
  v_strideM := 4
  dropout_prob := 0
  head_dim := 1
  head_dim_value := 1
  num_queries := 1
  num_keys := 1
  num_heads := 2
  num_batches := 1

/-! ## C4: tile scheduler (`attention_kernel` loops, lines 1094–1133) -/

/-- One `processBlockIJ` invocation: the tile coordinates together with the
`skipBoundsChecks` template argument it is instantiated with. -/
structure Visit where
  key_start : ℕ
  query_start : ℕ
  skipBoundsChecks : Bool
deriving DecidableEq, Repr

/-- `getQueryStart` (line 1747): the causal-masking policy hook, stubbed to
always return zero. -/
def getQueryStart (_num_queries _key_start : ℕ) : ℕ := 0

/-- `incrIteration` (line 1749): successor of a (query tile, key tile)
position in the traversal. -/
def incrIteration (num_queries : ℕ) (query_start key_start kBlockSizeI kBlockSizeJ : ℕ) :
    ℕ × ℕ :=
  let next_query := query_start + kBlockSizeI
  if next_query ≥ num_queries then
    let next_key := key_start + kBlockSizeJ
    (getQueryStart num_queries next_key, next_key)
  else (next_query, key_start)

/-- The inner (query) loop of `attention_kernel` for one full-size key tile
(lines 1098–1109): full query tiles with `skipBoundsChecks = true`, then one
ragged query tile with `skipBoundsChecks = false` when queries remain. -/
def innerQueryVisits (num_queries kBlockSizeI key_start : ℕ) : List Visit :=
  let qs0 := getQueryStart num_queries key_start
  let query_end := qs0 + (num_queries - qs0) / kBlockSizeI * kBlockSizeI
  let inner := forLoop qs0 query_end kBlockSizeI (num_queries + 1)
  (inner.1.map fun qs => ⟨key_start, qs, true⟩) ++
    (if inner.2 < num_queries then [⟨key_start, inner.2, false⟩] else [])

/-- The double tile loop of `attention_kernel` (lines 1094–1133): the exact
sequence of `processBlockIJ` invocations. -/
def attention_kernel_visits (num_queries num_keys kBlockSizeI kBlockSizeJ : ℕ) : List Visit :=
  let key_end := num_keys / kBlockSizeJ * kBlockSizeJ
  let outer := forLoop 0 key_end kBlockSizeJ (num_keys + 1)
  (outer.1.flatMap fun key_start => innerQueryVisits num_queries kBlockSizeI key_start) ++
    (if outer.2 ≠ num_keys then
      ((forLoop (getQueryStart num_queries outer.2) num_queries kBlockSizeI
            (num_queries + 1)).1.map
        fun qs => ⟨outer.2, qs, false⟩)
    else [])

/-- `num_queries_in_block` (line 1206). -/
def num_queries_in_block (kBlockSizeI num_queries : ℕ) (skipBoundsChecks : Bool)
    (query_start : ℕ) : ℕ :=
  if skipBoundsChecks then kBlockSizeI else min kBlockSizeI (num_queries - query_start)

/-- `num_keys_in_block` (line 1210). -/
def num_keys_in_block (kBlockSizeJ num_keys : ℕ) (skipBoundsChecks : Bool)
    (key_start : ℕ) : ℕ :=
  if skipBoundsChecks then kBlockSizeJ else min kBlockSizeJ (num_keys - key_start)

/-- The enumeration contract of claim C4: key-tile starts `0, tileJ, 2·tileJ, …`
below the key length (outer), query-tile starts `0, tileI, …` below the query
length (inner), each with valid counts `min(tileSize, remaining)`. -/
def claimSchedule (num_queries num_keys tileI tileJ : ℕ) : List (ℕ × ℕ × ℕ × ℕ) :=
  (List.range (ceilDiv num_keys tileJ)).flatMap fun j =>
    (List.range (ceilDiv num_queries tileI)).map fun i =>
      (j * tileJ, i * tileI, min tileJ (num_keys - j * tileJ),
        min tileI (num_queries - i * tileI))

/-- The tile coordinates and valid counts actually used by the kernel for one
visit. -/
def visitWithCounts (num_queries num_keys tileI tileJ : ℕ) (v : Visit) : ℕ × ℕ × ℕ × ℕ :=
  (v.key_start, v.query_start,
    num_keys_in_block tileJ num_keys v.skipBoundsChecks v.key_start,
    num_queries_in_block tileI num_queries v.skipBoundsChecks v.query_start)

/-! ## C3: delta precomputation (`computeDelta`, lines 1876–1958) -/

/-- `laneFirstCol` (line 1890): first column handled by a worker lane, where
`w` is `kElementsPerAccess` and `t` is `kNumThreadsPerLine`. -/
def laneFirstCol (w t lane : ℕ) : ℕ := w * (lane % t)

/-- One `columnIteration` of `computeDelta` (lines 1925–1936).  The fragment
consumed at iteration `iter` was loaded under the running predicate, which by
monotonicity of the column offsets collapses to
`first + iter·w·t < head_dim_value`; an invalid load leaves the cleared
(zero) fragment, so it contributes nothing.  Both factors are converted to
the accumulation type (modelled by `c`) before the multiply. -/
def deltaColumnIteration {α : Type} (c : α → ℚ) (o go : ℕ → α)
    (hdv w t first iter : ℕ) : ℚ :=
  if first + iter * (w * t) < hdv then
    ∑ i ∈ Finset.range w,
      c (o (first + iter * (w * t) + i)) * c (go (first + iter * (w * t) + i))
  else 0

/-- The per-worker partial `delta_value` of `computeDelta` after `numIters`
loop iterations. -/
def computeDeltaThread {α : Type} (c : α → ℚ) (o go : ℕ → α)
    (hdv w t numIters lane : ℕ) : ℚ :=
  ∑ iter ∈ Finset.range numIters,
    deltaColumnIteration c o go hdv w t (laneFirstCol w t lane) iter

/-- `computeDelta` for one valid query row (`o`/`go` are that row of the
output and output-gradient tensors): the `kNumThreadsPerLine` workers' partial
sums combined by the final butterfly-shuffle reduction (lines 1948–1954). -/
def computeDelta {α : Type} (c : α → ℚ) (o go : ℕ → α)
    (hdv w t numIters : ℕ) : ℚ :=
  ∑ lane ∈ Finset.range t, computeDeltaThread c o go hdv w t numIters lane

/-- The delta-pass dispatch of `attention_kernel` (lines 1078–1090): the
vectorised access width when `head_dim_value` divides evenly by it, scalar
accesses otherwise. -/
def kernelComputeDelta {α : Type} (c : α → ℚ) (o go : ℕ → α)
    (hdv wOpt t nOpt n1 : ℕ) : ℚ :=
  if hdv % wOpt = 0 then computeDelta c o go hdv wOpt t nOpt
  else computeDelta c o go hdv 1 t n1

/-! ## C1: score recomputation (`processBlockIJ`, MatmulQK, lines 1264–1354) -/

/-- The MatmulQK threadblock product (lines 1264–1298): `attn_T = k_j @ q_iᵀ`
accumulated over the feature dimension. `set_zero_outside_bounds` clears
operand entries beyond the valid counts, so out-of-range accumulator entries
are zero. The tile is transposed: entry `(k, q)`. -/
def mmaQK (Kmat Qmat : ℕ → ℕ → ℚ)
    (head_dim key_start query_start nkib nqib k q : ℕ) : ℚ :=
  if k < nkib ∧ q < nqib then
    ∑ f ∈ Finset.range head_dim, Kmat (key_start + k) f * Qmat (query_start + q) f
  else 0

/-- The scale/bias epilogue on the raw score tile (lines 1307–1338): with a
bias configured, `accum[k,q] = accum[k,q] * scale + B[q,k]` where `B` is the
shared-memory bias tile (filled by the bias loader, outside this file);
without bias, `accum = scale * accum`. -/
def scaledScoreTile (useBias : Bool) (scale : ℚ) (B : ℕ → ℕ → ℚ)
    (raw : ℕ → ℕ → ℚ) (k q : ℕ) : ℚ :=
  if useBias then raw k q * scale + B q k else scale * raw k q

/-- Modelled from the spec: `MatmulQK::B2bGemm::accumApplyLSEToSmem`
(line 1344, defined outside this file) — "Apply:
weight = exp(scale · rawScore − logSumExp[query])"; stores
`e (tile[k,q] − logsumexp[query_start + q])` to the shared attention buffer,
with the exponential abstracted as `e`. -/
def accumApplyLSEToSmem (e : ℚ → ℚ) (lse : ℕ → ℚ) (query_start : ℕ)
    (tile : ℕ → ℕ → ℚ) (k q : ℕ) : ℚ :=
  e (tile k q - lse (query_start + q))

/-- The attention-weight tile stored to `attn_shared_storage` by the MatmulQK
stage of `processBlockIJ`. -/
def attnTile (e : ℚ → ℚ) (useBias : Bool) (scale : ℚ) (B Kmat Qmat : ℕ → ℕ → ℚ)
    (lse : ℕ → ℚ) (head_dim key_start query_start nkib nqib k q : ℕ) : ℚ :=
  accumApplyLSEToSmem e lse query_start
    (scaledScoreTile useBias scale B
      (mmaQK Kmat Qmat head_dim key_start query_start nkib nqib))
    k q

/-! ## C2: score-gradient stage (`processBlockIJ`, MatmulDOIVJ, lines 1436–1500) -/

/-- The MatmulDOIVJ threadblock product (lines 1439–1463):
`dPij = do_i @ v_jᵀ` over the value feature dimension, with
`set_zero_outside_bounds` clearing out-of-range operand entries.
Entry `(q, k)`. -/
def mmaDOIVJ (dO V : ℕ → ℕ → ℚ)
    (head_dim_value query_start key_start nqib nkib q k : ℕ) : ℚ :=
  if q < nqib ∧ k < nkib then
    ∑ f ∈ Finset.range head_dim_value, dO (query_start + q) f * V (key_start + k) f
  else 0

/-- `loadDi` (line 1136): the per-row delta values staged to shared memory,
zero beyond the last valid query row. -/
def loadDi (delta : ℕ → ℚ) (num_queries query_start i : ℕ) : ℚ :=
  if query_start + i < num_queries then delta (query_start + i) else 0

/-- The per-element correction producing the score-gradient tile
(lines 1486–1500): `dSij = (dPij − Di) · Pij` when in range (or when bounds
checks are compiled out), exactly zero outside the valid rows/columns of a
ragged tile. The attention tile is read transposed (`attn_T.at({n, m})`). -/
def dSijTile (skipBoundsChecks : Bool) (nqib nkib : ℕ) (rawGrad : ℕ → ℕ → ℚ)
    (di : ℕ → ℚ) (attnT : ℕ → ℕ → ℚ) (q k : ℕ) : ℚ :=
  if skipBoundsChecks = true ∨ (q < nqib ∧ k < nkib) then
    (rawGrad q k - di q) * attnT k q
  else 0

/-! ## C5/C10: epilogue sequencing after MatmulDOIVJ (lines 1502–1565) and the
GradK operand choice (lines 745–753, 1550–1560, 1685–1693) -/

/-- The five side-effecting actions of the MatmulDOIVJ epilogue, in the order
the source can execute them. -/
inductive DOIVJStep
  | emitBias1
  | emitBias2
  | rescale
  | storeTmpT
  | storeTmp
deriving DecidableEq, Repr

/-- Observable state of the MatmulDOIVJ epilogue: the accumulator fragment
and what has been written where. `bias1Out`/`bias2Out` are the fragments
handed to the bias-gradient epilogues (they write with `OutputOp(1)`, scale
type `Nothing`, i.e. the fragment as is); `tmpOut`/`tmpTOut` are the tiles
stored to `tmp_shared_storage` / `tmpT_shared_storage`, both converted to the
storage scalar type, modelled by `c`. -/
structure DOIVJState where
  accum : ℕ → ℕ → ℚ
  bias1Out : Option (ℕ → ℕ → ℚ)
  bias2Out : Option (ℕ → ℕ → ℚ)
  tmpOut : Option (ℕ → ℕ → ℚ)
  tmpTOut : Option (ℕ → ℕ → ℚ)

/-- Effect of one epilogue action. `rescale` is `accum = accum * scale`
(line 1547); `storeTmpT` is the transposed write `tmpT.at({n, m}) =
scalar_t(accum[idx])` (lines 1550–1560); `storeTmp` is
`B2bGemm::accumToSmem` (line 1563, conversion to `scalar_t` modelled by
`c`). -/
def doivjStep (scale : ℚ) (c : ℚ → ℚ) (s : DOIVJState) : DOIVJStep → DOIVJState
  | DOIVJStep.emitBias1 => { s with bias1Out := some s.accum }
  | DOIVJStep.emitBias2 => { s with bias2Out := some s.accum }
  | DOIVJStep.rescale => { s with accum := fun q k => s.accum q k * scale }
  | DOIVJStep.storeTmpT => { s with tmpTOut := some fun k q => c (s.accum q k) }
  | DOIVJStep.storeTmp => { s with tmpOut := some fun q k => c (s.accum q k) }

/-- The action sequence of lines 1502–1565 in source order: bias-gradient
epilogues when enabled, then the rescale, then the transposed store exactly
when `MatmulGradK::DefaultMmaFromSmem::kIsTransposedA` is false, then the
store to `tmp_shared_storage`. -/
def doivjStepList (emit1 emit2 kIsTransposedA : Bool) : List DOIVJStep :=
  (if emit1 then [DOIVJStep.emitBias1] else []) ++
  (if emit2 then [DOIVJStep.emitBias2] else []) ++
  [DOIVJStep.rescale] ++
  (if !kIsTransposedA then [DOIVJStep.storeTmpT] else []) ++
  [DOIVJStep.storeTmp]

/-- Run the epilogue from the freshly corrected score-gradient tile. -/
def runDOIVJEpilogue (scale : ℚ) (c : ℚ → ℚ) (dSij : ℕ → ℕ → ℚ)
    (emit1 emit2 kIsTransposedA : Bool) : DOIVJState :=
  (doivjStepList emit1 emit2 kIsTransposedA).foldl (doivjStep scale c)
    { accum := dSij, bias1Out := none, bias2Out := none, tmpOut := none,
      tmpTOut := none }

/-- The MatmulGradQ contribution of one iteration (lines 1578–1651):
`grad_q[i] += tmp @ k_j`, operand A being the tile in
`tmp_shared_storage`. -/
def gradQContribution (tmp Kmat : ℕ → ℕ → ℚ) (key_start nkib q f : ℕ) : ℚ :=
  ∑ k ∈ Finset.range nkib, tmp q k * Kmat (key_start + k) f

/-- The operand-A tile consumed by the MatmulGradK matmul (lines 1685–1693):
`tmp_shared_storage` read transposed when `kIsTransposedA`, otherwise the
pre-transposed `tmpT_shared_storage` read directly. -/
def gradKOperandA (kIsTransposedA : Bool) (s : DOIVJState) : ℕ → ℕ → ℚ :=
  if kIsTransposedA then fun k q => (s.tmpOut.getD fun _ _ => 0) q k
  else s.tmpTOut.getD fun _ _ => 0

/-- The MatmulGradK contribution of one iteration (lines 1660–1744):
`grad_k[j] += opAᵀ-view @ q_i` reduced over the valid query rows. -/
def gradKContribution (kIsTransposedA : Bool) (s : DOIVJState) (Qmat : ℕ → ℕ → ℚ)
    (query_start nqib k f : ℕ) : ℚ :=
  ∑ q ∈ Finset.range nqib,
    gradKOperandA kIsTransposedA s k q * Qmat (query_start + q) f

/-! ## C7: zero-fill of contribution-less key tiles (`zfillGradKV`,
lines 1150–1177, call sites lines 1110–1132) -/

/-- `kThreadsPerKey` (line 1156). -/
def kThreadsPerKey : ℕ := 8

/-- The offsets written (as zero) into one gradient tensor by one thread of
`zfillGradKV` (lines 1162–1176): `k_shift = lane_id % kThreadsPerKey` with
`lane_id = thread_id % 32`, keys strided by
`kParallelKeys = kNumThreads / kThreadsPerKey`, feature columns strided by
`kThreadsPerKey`; a key at or past `num_keys` is skipped when bounds checks
are active.  The same loop writes `grad_value` (extent `head_dim_value`, row
stride `gV_strideM`) and `grad_key` (extent `head_dim`, row stride
`gK_strideM`). -/
def zfillThreadWrites (kNumThreads kBlockSizeJ num_keys extent : ℕ)
    (skipBoundsChecks : Bool) (key_start strideM thread_id : ℕ) : List ℕ :=
  ((forLoop 0 kBlockSizeJ (kNumThreads / kThreadsPerKey) (kBlockSizeJ + 1)).1).flatMap
    fun j =>
      if skipBoundsChecks = false ∧ num_keys ≤ key_start + j + thread_id / kThreadsPerKey
      then []
      else
        ((forLoop (thread_id % 32 % kThreadsPerKey) extent kThreadsPerKey
              (extent + 1)).1).map
          fun k => (key_start + j + thread_id / kThreadsPerKey) * strideM + k

/-- All `grad_value` offsets zero-filled by the block's threads. -/
def zfillGradKV_gvWrites (kNumThreads kBlockSizeJ num_keys head_dim_value : ℕ)
    (skipBoundsChecks : Bool) (key_start gv_strideM : ℕ) : List ℕ :=
  (List.range kNumThreads).flatMap
    (zfillThreadWrites kNumThreads kBlockSizeJ num_keys head_dim_value
      skipBoundsChecks key_start gv_strideM)

/-- All `grad_key` offsets zero-filled by the block's threads. -/
def zfillGradKV_gkWrites (kNumThreads kBlockSizeJ num_keys head_dim : ℕ)
    (skipBoundsChecks : Bool) (key_start gk_strideM : ℕ) : List ℕ :=
  (List.range kNumThreads).flatMap
    (zfillThreadWrites kNumThreads kBlockSizeJ num_keys head_dim
      skipBoundsChecks key_start gk_strideM)

/-- A flat tensor after every offset in `writes` has been stored zero. -/
def memAfterZfill (writes : List ℕ) (m : ℕ → ℚ) : ℕ → ℚ :=
  fun addr => if addr ∈ writes then 0 else m addr

/-! ## C6: dropout mask determinism (lines 306–338, 1383–1394) -/

/-- `dropout_batch_head_rng_offset` as computed by `advance_to_block`
(line 325). -/
def dropout_batch_head_rng_offset (num_heads num_queries num_keys
    batch_id head_id : ℕ) : ℕ :=
  batch_id * (num_heads * num_queries * num_keys) + head_id * (num_queries * num_keys)

/-- Modelled from the spec: the dropout mask tile `Zij` regenerated by the
backward pass — "deterministically regenerated per (batch, head, query-tile,
key-tile) coordinate from a seed plus that coordinate".  The pseudorandom
generator itself is outside this file's code and abstracted as `gen`; the
tile is a pure function of the seed, the per-(batch, head) RNG offset of
`advance_to_block`, and the tile coordinate. -/
def regeneratedMaskTile (gen : ℕ → ℕ → ℕ → ℕ → ℕ → ℕ → Bool)
    (seed num_heads num_queries num_keys batch_id head_id
      query_start key_start : ℕ) : ℕ → ℕ → Bool :=
  fun q k =>
    gen seed
      (dropout_batch_head_rng_offset num_heads num_queries num_keys batch_id head_id)
      query_start key_start q k

/-- Modelled from the spec: the mask tile drawn by the forward pass from the
same seed/offset scheme at the same coordinate. -/
def forwardMaskTile (gen : ℕ → ℕ → ℕ → ℕ → ℕ → ℕ → Bool)
    (seed num_heads num_queries num_keys batch_id head_id
      query_start key_start : ℕ) : ℕ → ℕ → Bool :=
  fun q k =>
    gen seed
      (dropout_batch_head_rng_offset num_heads num_queries num_keys batch_id head_id)
      query_start key_start q k

/-! ## Theorems -/

theorem ceilDiv_zero_left (b : ℕ) : ceilDiv 0 b = 0 := by
  unfold ceilDiv
  rcases Nat.eq_zero_or_pos b with hb | hb
  · simp [hb]
  · exact Nat.div_eq_of_lt (by omega)

theorem ceilDiv_sub_add (n s : ℕ) (hs : 0 < s) (hn : 0 < n) :
    ceilDiv n s = ceilDiv (n - s) s + 1 := by
  unfold ceilDiv
  rcases Nat.le_total n s with h | h
  · have h1 : n - s = 0 := by omega
    rw [h1]
    have h2 : (n + s - 1) / s = 1 := by
      have := Nat.div_add_mod (n + s - 1) s
      have hlt : (n + s - 1) % s < s := Nat.mod_lt _ hs
      have hle : (n + s - 1) / s ≤ 1 := by
        by_contra hgt
        push_neg at hgt
        have : 2 * s ≤ s * ((n + s - 1) / s) := by
          calc 2 * s = s * 2 := by ring
          _ ≤ s * ((n + s - 1) / s) := Nat.mul_le_mul_left s hgt
        omega
      have hge : 1 ≤ (n + s - 1) / s := by
        by_contra hlt2
        push_neg at hlt2
        interval_cases h' : (n + s - 1) / s
        omega
      omega
    have h3 : (0 + s - 1) / s = 0 := Nat.div_eq_of_lt (by omega)
    omega
  · have h1 : n - s + s - 1 + s = n + s - 1 := by omega
    rw [← h1, Nat.add_div_right _ hs]

theorem ceilDiv_mul (c s : ℕ) (hs : 0 < s) : ceilDiv (c * s) s = c := by
  unfold ceilDiv
  have h1 : c * s + s - 1 = s * c + (s - 1) := by
    have := Nat.one_le_iff_ne_zero.mpr (Nat.pos_iff_ne_zero.mp hs)
    rw [Nat.mul_comm]; omega
  rw [h1, Nat.mul_add_div hs]
  have : (s - 1) / s = 0 := Nat.div_eq_of_lt (by omega)
  omega

theorem ceilDiv_le (n s fuel : ℕ) (h : n ≤ fuel) : ceilDiv n s ≤ fuel := by
  have key : ceilDiv n s ≤ n := by
    unfold ceilDiv
    rcases Nat.eq_zero_or_pos s with hs | hs
    · simp [hs]
    · have h1 : n + s - 1 ≤ s * n + (s - 1) := by
        have := Nat.le_mul_of_pos_left n hs
        omega
      calc (n + s - 1) / s ≤ (s * n + (s - 1)) / s := Nat.div_le_div_right h1
        _ = n + (s - 1) / s := Nat.mul_add_div hs n (s - 1)
        _ = n := by rw [Nat.div_eq_of_lt (by omega)]; omega
  omega

/-- Closed form of `forLoop`: with enough fuel, the loop visits exactly the
multiples `start + t * step` for `t < ⌈(stop − start) / step⌉` and the loop
counter ends at the first such multiple at or past `stop`. -/
theorem forLoop_eq (step : ℕ) (hs : 0 < step) :
    ∀ (fuel start stop : ℕ), stop - start ≤ fuel →
      forLoop start stop step fuel =
        ((List.range (ceilDiv (stop - start) step)).map (fun t => start + t * step),
          start + ceilDiv (stop - start) step * step) := by
  intro fuel
  induction fuel with
  | zero =>
    intro start stop h
    have h0 : stop - start = 0 := Nat.le_zero.mp h
    rw [forLoop]
    have hlt : ¬ start < stop := by omega
    simp [hlt, h0, ceilDiv_zero_left]
  | succ n ih =>
    intro start stop h
    rw [forLoop]
    by_cases hlt : start < stop
    · simp only [hlt, if_true]
      have hrec : stop - (start + step) ≤ n := by omega
      rw [ih (start + step) stop hrec]
      have hc : ceilDiv (stop - start) step = ceilDiv (stop - start - step) step + 1 :=
        ceilDiv_sub_add _ _ hs (by omega)
      have hsub : stop - (start + step) = stop - start - step := by omega
      rw [hsub, hc]
      simp only [Prod.mk.injEq]
      constructor
      · rw [List.range_succ_eq_map, List.map_cons, List.map_map]
        simp only [Nat.add_zero, Nat.zero_mul]
        congr 1
        apply List.map_congr_left
        intro t _
        simp only [Function.comp_apply, Nat.succ_eq_add_one, Nat.mul_add, Nat.add_mul]
        omega
      · ring
    · simp only [hlt, if_false]
      have h0 : stop - start = 0 := by omega
      simp [h0, ceilDiv_zero_left]

theorem ceilDiv_eq_cases (n s : ℕ) (hs : 0 < s) :
    ceilDiv n s = n / s + (if n % s = 0 then 0 else 1) := by
  have hdm := Nat.div_add_mod n s
  unfold ceilDiv
  by_cases hr : n % s = 0
  · simp only [hr, if_true, Nat.add_zero]
    have h2 : n + s - 1 = s * (n / s) + (s - 1) := by omega
    rw [h2, Nat.mul_add_div hs, Nat.div_eq_of_lt (show s - 1 < s by omega), Nat.add_zero]
  · simp only [hr, if_false]
    have h2 : n + s - 1 = s * (n / s) + (n % s + s - 1) := by omega
    rw [h2, Nat.mul_add_div hs]
    have hmlt : n % s < s := Nat.mod_lt n hs
    have hq1 : 1 ≤ (n % s + s - 1) / s := (Nat.one_le_div_iff hs).mpr (by omega)
    have hq2 : (n % s + s - 1) / s < 2 := (Nat.div_lt_iff_lt_mul hs).mpr (by omega)
    omega

theorem inner_visits_eq (nq nk tI tJ ks : ℕ) (hI : 0 < tI) (hKs : ks + tJ ≤ nk) :
    (innerQueryVisits nq tI ks).map (visitWithCounts nq nk tI tJ) =
      (List.range (ceilDiv nq tI)).map
        (fun i => (ks, i * tI, min tJ (nk - ks), min tI (nq - i * tI))) := by
  have hle : nq / tI * tI ≤ nq := Nat.div_mul_le_self nq tI
  have hdm := Nat.div_add_mod' nq tI
  have hfull : ∀ i, i < nq / tI →
      visitWithCounts nq nk tI tJ ⟨ks, i * tI, true⟩ =
        (ks, i * tI, min tJ (nk - ks), min tI (nq - i * tI)) := by
    intro i hi
    have h1 : (i + 1) * tI ≤ nq / tI * tI := Nat.mul_le_mul_right tI (by omega)
    have h3 : (i + 1) * tI = i * tI + tI := by ring
    have h2 : i * tI + tI ≤ nq := by omega
    simp only [visitWithCounts, num_keys_in_block, num_queries_in_block, if_true,
      Prod.mk.injEq]
    refine ⟨trivial, trivial, by omega, by omega⟩
  simp only [innerQueryVisits, getQueryStart, Nat.zero_add, Nat.sub_zero]
  rw [forLoop_eq tI hI (nq + 1) 0 (nq / tI * tI) (by omega)]
  simp only [Nat.sub_zero, Nat.zero_add, ceilDiv_mul _ _ hI, List.map_append, List.map_map]
  rw [ceilDiv_eq_cases nq tI hI]
  by_cases hdvd : nq % tI = 0
  · have hnotlt : ¬ nq / tI * tI < nq := by omega
    rw [if_neg hnotlt]
    simp only [hdvd, if_true, Nat.add_zero, List.map_nil, List.append_nil]
    apply List.map_congr_left
    intro i hi
    rw [List.mem_range] at hi
    simp only [Function.comp_apply]
    exact hfull i hi
  · have hlt : nq / tI * tI < nq := by
      have hmlt : nq % tI < tI := Nat.mod_lt nq hI
      omega
    rw [if_pos hlt]
    simp only [hdvd, if_false]
    rw [show nq / tI + 1 = (nq / tI).succ from rfl, List.range_succ, List.map_append]
    congr 1
    · apply List.map_congr_left
      intro i hi
      rw [List.mem_range] at hi
      simp only [Function.comp_apply]
      exact hfull i hi

theorem flatMap_congr_left {α β : Type} (l : List α) (f g : α → List β)
    (h : ∀ a ∈ l, f a = g a) : l.flatMap f = l.flatMap g := by
  induction l with
  | nil => rfl
  | cons x xs ih =>
    simp only [List.flatMap_cons]
    rw [h x (List.mem_cons_self x xs), ih fun a ha => h a (List.mem_cons_of_mem x ha)]

/-- **C4**: the tile scheduler visits exactly the pairs
`(key_start, query_start)` with `key_start ∈ {0, tileJ, 2·tileJ, …}` below the
key length (outer loop) and, for each, `query_start ∈ {0, tileI, …}` below the
query length (inner loop), in that nested order; the valid row/column counts
used for each visit are `min(tileSize, remaining)`. -/
theorem attention_kernel_visits_eq_claimSchedule (nq nk tI tJ : ℕ)
    (hI : 0 < tI) (hJ : 0 < tJ) :
    (attention_kernel_visits nq nk tI tJ).map (visitWithCounts nq nk tI tJ) =
      claimSchedule nq nk tI tJ := by
  have hleK : nk / tJ * tJ ≤ nk := Nat.div_mul_le_self nk tJ
  have hdmK := Nat.div_add_mod' nk tJ
  have hrow : ∀ j ∈ List.range (nk / tJ),
      (innerQueryVisits nq tI (j * tJ)).map (visitWithCounts nq nk tI tJ) =
        (List.range (ceilDiv nq tI)).map
          (fun i => (j * tJ, i * tI, min tJ (nk - j * tJ), min tI (nq - i * tI))) := by
    intro j hj
    rw [List.mem_range] at hj
    apply inner_visits_eq nq nk tI tJ (j * tJ) hI
    have h1 : (j + 1) * tJ ≤ nk / tJ * tJ := Nat.mul_le_mul_right tJ (by omega)
    have h3 : (j + 1) * tJ = j * tJ + tJ := by ring
    omega
  unfold attention_kernel_visits claimSchedule
  simp only [getQueryStart]
  rw [forLoop_eq tJ hJ (nk + 1) 0 (nk / tJ * tJ) (by omega)]
  simp only [Nat.sub_zero, Nat.zero_add, ceilDiv_mul _ _ hJ]
  rw [ceilDiv_eq_cases nk tJ hJ]
  rw [List.map_append, List.map_flatMap, List.flatMap_map]
  by_cases hdvd : nk % tJ = 0
  · rw [if_neg (by omega : ¬ nk / tJ * tJ ≠ nk)]
    simp only [hdvd, if_true, Nat.add_zero, List.map_nil, List.append_nil]
    exact flatMap_congr_left _ _ _ hrow
  · rw [if_pos (by
      have hmlt : nk % tJ < tJ := Nat.mod_lt nk hJ
      omega : nk / tJ * tJ ≠ nk)]
    simp only [hdvd, if_false]
    rw [show nk / tJ + 1 = (nk / tJ).succ from rfl, List.range_succ, List.flatMap_append]
    congr 1
    · exact flatMap_congr_left _ _ _ hrow
    · simp only [List.flatMap_cons, List.flatMap_nil, List.append_nil]
      rw [forLoop_eq tI hI (nq + 1) 0 nq (by omega)]
      simp only [Nat.sub_zero, Nat.zero_add, List.map_map]
      apply List.map_congr_left
      intro i _
      simp [visitWithCounts, num_keys_in_block, num_queries_in_block]

/-- Witness for the C4 theorem at the spec's example sizes (query length 5,
key length 5, 4×4 tiles). -/
theorem attention_kernel_visits_witness :
    (attention_kernel_visits 5 5 4 4).map (visitWithCounts 5 5 4 4) =
      claimSchedule 5 5 4 4 :=
  attention_kernel_visits_eq_claimSchedule 5 5 4 4 (by decide) (by decide)

/-- **C9**: the required scratch workspace size equals
`num_batches * num_heads * align_up(E_gk + E_gv + E_gq, 4) * sizeof(float)`
with the per-accumulator padded plane sizes as the claim states them, and it
is exactly zero whenever no `kNeedsAccum` flag is set (in particular for a
`float` scalar type, where none of the flags can be set). -/
theorem workspace_size_eq_claim :
    (∀ bq bk bv nb nh nq nk hd hdv tI tJ,
        workspace_size bq bk bv nb nh nq nk hd hdv tI tJ =
          claimWorkspaceSize bq bk bv nb nh nq nk hd hdv tI tJ) ∧
    (∀ kMaxK nb nh nq nk hd hdv tI tJ,
        workspace_size (kNeedsAccumGradQ false) (kNeedsAccumGradK false kMaxK tI)
            (kNeedsAccumGradV false kMaxK tI) nb nh nq nk hd hdv tI tJ = 0) := by
  constructor
  · intro bq bk bv nb nh nq nk hd hdv tI tJ
    unfold workspace_size claimWorkspaceSize workspace_strideBH workspace_elements_gk
      workspace_elements_gv workspace_elements_gq
    by_cases h : nk ≤ tJ
    · cases bq <;> cases bk <;> cases bv <;> simp [h, Nat.not_lt.mpr h]
    · cases bq <;> cases bk <;> cases bv <;> simp [h, Nat.lt_of_not_le h]
  · intro kMaxK nb nh nq nk hd hdv tI tJ
    simp [kNeedsAccumGradQ, kNeedsAccumGradK, kNeedsAccumGradV, workspace_size,
      workspace_strideBH, workspace_elements_gk, workspace_elements_gv,
      workspace_elements_gq, align_up, ceilDiv]

/-- **C8** (counterexample): a parameter set that satisfies every
precondition listed by the claim — with alignment 4 and `kMaxK = 8` — yet is
rejected by `check_supported`, because the per-head query stride is
misaligned and there is more than one head. The claimed "if and only if" is
therefore false. -/
theorem check_supported_claim_false :
    claimPreconditionsC8 false 4 8 paramsC8 ∧ ¬ check_supported false 4 8 paramsC8 := by
  constructor
  · unfold claimPreconditionsC8 CHECK_ALIGNED_PTR paramsC8
    norm_num
  · unfold check_supported CHECK_ALIGNED_PTR paramsC8
    intro h
    have h8 := h.2.2.2.2.2.2.2.1
    norm_num at h8

/-- **C8** (amended): `check_supported` succeeds exactly when the claim's
precondition list holds *and additionally* the per-head strides of
query/key/value are aligned whenever more than one head is present, and the
per-batch strides are aligned whenever more than one batch is present. -/
theorem check_supported_iff_amended (ka : Bool) (al : ℕ) (mk : ℤ) (p : Params) :
    check_supported ka al mk p ↔
      claimPreconditionsC8 ka al mk p ∧
        (p.num_heads ≤ 1 ∨
          (p.q_strideH % (al : ℤ) = 0 ∧ p.k_strideH % (al : ℤ) = 0 ∧
            p.v_strideH % (al : ℤ) = 0)) ∧
        (p.num_batches ≤ 1 ∨
          (p.q_strideB % (al : ℤ) = 0 ∧ p.k_strideB % (al : ℤ) = 0 ∧
            p.v_strideB % (al : ℤ) = 0)) := by
  unfold check_supported claimPreconditionsC8
  constructor
  · rintro ⟨a1, a2, a3, a4, a5, l1, l2, h1, h2, h3, b1, b2, b3, m1, m2, m3, d1, d2, d3,
      p1, p2, p3, p4, p5, p6, k1, k2⟩
    refine ⟨⟨a1, a2, a3, a4, a5, l2, l1, m1, m2, m3, d2, d1, d3, p1, p2, p3, p4, p5, p6,
      k1, k2⟩, ?_, ?_⟩
    · by_cases hh : p.num_heads ≤ 1
      · exact Or.inl hh
      · exact Or.inr ⟨h1.resolve_left hh, h2.resolve_left hh, h3.resolve_left hh⟩
    · by_cases hb : p.num_batches ≤ 1
      · exact Or.inl hb
      · exact Or.inr ⟨b1.resolve_left hb, b2.resolve_left hb, b3.resolve_left hb⟩
  · rintro ⟨⟨a1, a2, a3, a4, a5, l2, l1, m1, m2, m3, d2, d1, d3, p1, p2, p3, p4, p5, p6,
      k1, k2⟩, hh, hb⟩
    refine ⟨a1, a2, a3, a4, a5, l1, l2, ?_, ?_, ?_, ?_, ?_, ?_, m1, m2, m3, d1, d2, d3,
      p1, p2, p3, p4, p5, p6, k1, k2⟩
    · rcases hh with h | h
      exacts [Or.inl h, Or.inr h.1]
    · rcases hh with h | h
      exacts [Or.inl h, Or.inr h.2.1]
    · rcases hh with h | h
      exacts [Or.inl h, Or.inr h.2.2]
    · rcases hb with h | h
      exacts [Or.inl h, Or.inr h.1]
    · rcases hb with h | h
      exacts [Or.inl h, Or.inr h.2.1]
    · rcases hb with h | h
      exacts [Or.inl h, Or.inr h.2.2]

theorem sum_range_add_eq (g : ℕ → ℚ) (a b : ℕ) :
    ∑ k ∈ Finset.range (a + b), g k =
      (∑ k ∈ Finset.range a, g k) + ∑ j ∈ Finset.range b, g (a + j) := by
  induction b with
  | zero => simp
  | succ n ih =>
    rw [show a + (n + 1) = (a + n) + 1 from rfl, Finset.sum_range_succ, ih,
      Finset.sum_range_succ]
    ring

theorem sum_range_mul_eq (g : ℕ → ℚ) (a b : ℕ) :
    ∑ k ∈ Finset.range (a * b), g k =
      ∑ i ∈ Finset.range a, ∑ j ∈ Finset.range b, g (i * b + j) := by
  induction a with
  | zero => simp
  | succ n ih =>
    rw [Nat.succ_mul, sum_range_add_eq, ih, Finset.sum_range_succ]

theorem ite_block_sum (g : ℕ → ℚ) (hdv w base : ℕ) (hw : 0 < w)
    (hbase : w ∣ base) (hdiv : w = 1 ∨ hdv % w = 0) :
    (if base < hdv then ∑ i ∈ Finset.range w, g (base + i) else 0) =
      ∑ i ∈ Finset.range w, if base + i < hdv then g (base + i) else 0 := by
  by_cases hb : base < hdv
  · rw [if_pos hb]
    apply Finset.sum_congr rfl
    intro i hi
    rw [Finset.mem_range] at hi
    rw [if_pos]
    rcases hdiv with h1 | h1
    · omega
    · obtain ⟨a, ha⟩ := hbase
      obtain ⟨b, hbn⟩ := Nat.dvd_of_mod_eq_zero h1
      have hab : a < b := by
        by_contra hc
        push_neg at hc
        have : w * b ≤ w * a := Nat.mul_le_mul_left w hc
        omega
      have h2 : w * (a + 1) ≤ w * b := Nat.mul_le_mul_left w hab
      have h3 : w * (a + 1) = w * a + w := by ring
      omega
  · rw [if_neg hb]
    symm
    apply Finset.sum_eq_zero
    intro i hi
    rw [if_neg (by omega)]

theorem computeDelta_eq_sum {α : Type} (c : α → ℚ) (o go : ℕ → α)
    (hdv w t numIters : ℕ) (hw : 0 < w) (ht : 0 < t)
    (hdiv : w = 1 ∨ hdv % w = 0) (hcov : hdv ≤ numIters * (w * t)) :
    computeDelta c o go hdv w t numIters =
      ∑ f ∈ Finset.range hdv, c (o f) * c (go f) := by
  set F : ℕ → ℚ := fun col => if col < hdv then c (o col) * c (go col) else 0 with hF
  have step1 : computeDelta c o go hdv w t numIters =
      ∑ lane ∈ Finset.range t, ∑ iter ∈ Finset.range numIters,
        ∑ i ∈ Finset.range w, F (w * lane + iter * (w * t) + i) := by
    unfold computeDelta computeDeltaThread deltaColumnIteration laneFirstCol
    apply Finset.sum_congr rfl
    intro lane hlane
    rw [Finset.mem_range] at hlane
    rw [Nat.mod_eq_of_lt hlane]
    apply Finset.sum_congr rfl
    intro iter _
    have hdvd : w ∣ (w * lane + iter * (w * t)) := ⟨lane + iter * t, by ring⟩
    rw [ite_block_sum (fun col => c (o col) * c (go col)) hdv w
      (w * lane + iter * (w * t)) hw hdvd hdiv]
  have hgoal : ∑ f ∈ Finset.range hdv, c (o f) * c (go f) =
      ∑ col ∈ Finset.range hdv, F col := by
    apply Finset.sum_congr rfl
    intro x hx
    rw [Finset.mem_range] at hx
    simp only [hF]
    rw [if_pos hx]
  have hsub : ∑ col ∈ Finset.range hdv, F col =
      ∑ col ∈ Finset.range (numIters * (w * t)), F col := by
    apply Finset.sum_subset (Finset.range_subset.mpr hcov)
    intro x _ hx
    have hxlt : ¬ x < hdv := fun hc => hx (Finset.mem_range.mpr hc)
    simp only [hF]
    rw [if_neg hxlt]
  have step3 : ∑ col ∈ Finset.range (numIters * (w * t)), F col =
      ∑ iter ∈ Finset.range numIters, ∑ r ∈ Finset.range (w * t),
        F (iter * (w * t) + r) :=
    sum_range_mul_eq F numIters (w * t)
  have step4 : ∀ iter : ℕ, ∑ r ∈ Finset.range (w * t), F (iter * (w * t) + r) =
      ∑ lane ∈ Finset.range t, ∑ i ∈ Finset.range w,
        F (iter * (w * t) + (lane * w + i)) := by
    intro iter
    rw [show w * t = t * w from Nat.mul_comm w t]
    exact sum_range_mul_eq (fun r => F (iter * (t * w) + r)) t w
  rw [step1, hgoal, hsub, step3, Finset.sum_comm]
  apply Finset.sum_congr rfl
  intro iter _
  rw [step4 iter]
  apply Finset.sum_congr rfl
  intro lane _
  apply Finset.sum_congr rfl
  intro i _
  congr 1
  ring

/-- **C3**: for every query row of every (batch, head) pair, the delta value
computed by the kernel's delta pass equals
`Σ_f output[r,f] · outputGradient[r,f]` over the feature dimension, with every
partial product formed from values converted by `c` into the accumulation
type, and the value does not depend on `head_dim_value` being a multiple of
the vector access width — the dispatch at lines 1078–1090 picks the
vectorised width exactly when it divides evenly, and out-of-range lanes
contribute exactly zero in either variant. -/
theorem kernelComputeDelta_eq_sum {α : Type} (c : α → ℚ) (o go : ℕ → α)
    (hdv wOpt t nOpt n1 : ℕ) (hw : 0 < wOpt) (ht : 0 < t)
    (hcov1 : hdv ≤ nOpt * (wOpt * t)) (hcov2 : hdv ≤ n1 * (1 * t)) :
    kernelComputeDelta c o go hdv wOpt t nOpt n1 =
      ∑ f ∈ Finset.range hdv, c (o f) * c (go f) := by
  unfold kernelComputeDelta
  by_cases h : hdv % wOpt = 0
  · rw [if_pos h]
    exact computeDelta_eq_sum c o go hdv wOpt t nOpt hw ht (Or.inr h) hcov1
  · rw [if_neg h]
    exact computeDelta_eq_sum c o go hdv 1 t n1 Nat.one_pos ht (Or.inl rfl) hcov2

/-- Witness for the C3 theorem: three feature columns, vector width 2 (which
does not divide 3, so the scalar variant runs), two workers per row. -/
theorem kernelComputeDelta_witness :
    kernelComputeDelta (id : ℚ → ℚ) (fun f => (f : ℚ) + 1) (fun _ => (1 : ℚ)) 3 2 2 1 2 =
      ∑ f ∈ Finset.range 3, id ((f : ℚ) + 1) * id (1 : ℚ) :=
  kernelComputeDelta_eq_sum id (fun f => (f : ℚ) + 1) (fun _ => (1 : ℚ)) 3 2 2 1 2
    (by decide) (by decide) (by decide) (by decide)

/-- **C1**: for every (key-tile, query-tile) iteration and every in-range
entry `(k, q)`, the recomputed attention-weight tile stored to the shared
attention buffer equals `e(scale · rawScore − logSumExp[query row])` with
`rawScore = Key_tile × Query_tileᵀ`, and when a bias is configured the bias
value is added to `scale · rawScore` before the exponential and the
log-sum-exp subtraction, giving
`e(scale · rawScore + bias − logSumExp[query row])`. -/
theorem attnTile_eq (e : ℚ → ℚ) (useBias : Bool) (scale : ℚ)
    (B Kmat Qmat : ℕ → ℕ → ℚ) (lse : ℕ → ℚ)
    (head_dim key_start query_start nkib nqib k q : ℕ)
    (hk : k < nkib) (hq : q < nqib) :
    attnTile e useBias scale B Kmat Qmat lse head_dim key_start query_start nkib nqib
        k q =
      e (scale * (∑ f ∈ Finset.range head_dim,
            Kmat (key_start + k) f * Qmat (query_start + q) f) +
          (if useBias then B q k else 0) - lse (query_start + q)) := by
  unfold attnTile accumApplyLSEToSmem scaledScoreTile mmaQK
  cases useBias
  · simp only [Bool.false_eq_true, if_false]
    rw [if_pos (⟨hk, hq⟩ : k < nkib ∧ q < nqib)]
    congr 1
    ring
  · simp only [if_true]
    rw [if_pos (⟨hk, hq⟩ : k < nkib ∧ q < nqib)]
    congr 1
    ring

/-- Witness for the C1 theorem: a 2×2 tile with bias, head_dim 4, constant
inputs. -/
theorem attnTile_witness :
    attnTile (fun x => x * x) true 2 (fun _ _ => 3) (fun _ _ => 1) (fun _ _ => 1)
        (fun _ => 5) 4 0 0 2 2 0 0 =
      (fun x => x * x)
        (2 * (∑ f ∈ Finset.range 4, (fun (_ _ : ℕ) => (1 : ℚ)) (0 + 0) f *
            (fun (_ _ : ℕ) => (1 : ℚ)) (0 + 0) f) +
          (if true then (fun (_ _ : ℕ) => (3 : ℚ)) 0 0 else 0) -
          (fun (_ : ℕ) => (5 : ℚ)) (0 + 0)) :=
  attnTile_eq (fun x => x * x) true 2 (fun _ _ => 3) (fun _ _ => 1) (fun _ _ => 1)
    (fun _ => 5) 4 0 0 2 2 0 0 (by decide) (by decide)

/-- **C2**: in the score-gradient stage of a bounds-checked (ragged)
iteration, every in-range element of the score-gradient tile is
`(rawGrad[q,k] − delta[q]) · weight[q,k]` where
`rawGrad = OutputGradient_tile × Value_tileᵀ`, `delta` is the precomputed
per-row correction staged by `loadDi`, and `weight` is the tile recomputed by
the same iteration's MatmulQK stage; every element whose row is at or past
the valid query count or whose column is at or past the valid key count is
set to exactly zero. -/
theorem dSijTile_spec (e : ℚ → ℚ) (useBias : Bool) (scale : ℚ)
    (B Kmat Qmat dO V : ℕ → ℕ → ℚ) (lse delta : ℕ → ℚ)
    (head_dim head_dim_value key_start query_start nkib nqib num_queries : ℕ)
    (hq_valid : query_start + nqib ≤ num_queries) :
    ∀ q k,
      (q < nqib → k < nkib →
        dSijTile false nqib nkib
            (mmaDOIVJ dO V head_dim_value query_start key_start nqib nkib)
            (loadDi delta num_queries query_start)
            (attnTile e useBias scale B Kmat Qmat lse head_dim key_start query_start
              nkib nqib) q k =
          ((∑ f ∈ Finset.range head_dim_value,
              dO (query_start + q) f * V (key_start + k) f) -
              delta (query_start + q)) *
            attnTile e useBias scale B Kmat Qmat lse head_dim key_start query_start
              nkib nqib k q) ∧
      (nqib ≤ q ∨ nkib ≤ k →
        dSijTile false nqib nkib
            (mmaDOIVJ dO V head_dim_value query_start key_start nqib nkib)
            (loadDi delta num_queries query_start)
            (attnTile e useBias scale B Kmat Qmat lse head_dim key_start query_start
              nkib nqib) q k = 0) := by
  intro q k
  constructor
  · intro hq hk
    unfold dSijTile
    rw [if_pos (Or.inr ⟨hq, hk⟩)]
    unfold mmaDOIVJ loadDi
    rw [if_pos ⟨hq, hk⟩, if_pos (by omega)]
  · intro hout
    unfold dSijTile
    rw [if_neg]
    simp only [not_or, not_and]
    exact ⟨by simp, by omega⟩

/-- Witness for the C2 theorem: a ragged 2×2-valid tile inside a larger
problem, checked at the in-range element (1, 1). -/
theorem dSijTile_witness :
    dSijTile false 2 2
        (mmaDOIVJ (fun _ _ => 1) (fun _ _ => 1) 3 0 0 2 2)
        (loadDi (fun _ => 2) 4 0)
        (attnTile id false 1 (fun _ _ => 0) (fun _ _ => 1) (fun _ _ => 1)
          (fun _ => 0) 3 0 0 2 2) 1 1 =
      ((∑ f ∈ Finset.range 3,
          (fun (_ _ : ℕ) => (1 : ℚ)) (0 + 1) f * (fun (_ _ : ℕ) => (1 : ℚ)) (0 + 1) f) -
          (fun (_ : ℕ) => (2 : ℚ)) (0 + 1)) *
        attnTile id false 1 (fun _ _ => 0) (fun _ _ => 1) (fun _ _ => 1)
          (fun _ => 0) 3 0 0 2 2 1 1 :=
  ((dSijTile_spec id false 1 (fun _ _ => 0) (fun _ _ => 1) (fun _ _ => 1)
      (fun _ _ => 1) (fun _ _ => 1) (fun _ => 0) (fun _ => 2) 3 3 0 0 2 2 4
      (by decide)) 1 1).1 (by decide) (by decide)

/-- **C5**: whenever bias-gradient output is requested, the fragments handed
to the bias-gradient epilogues are the *unscaled* score-gradient tile; the
rescale `accum *= scale` runs only after both epilogues, and the tile stored
to `tmp_shared_storage` — the one the query-gradient matmul consumes — is the
scaled tile. -/
theorem doivjEpilogue_spec (scale : ℚ) (c : ℚ → ℚ) (dSij Kmat : ℕ → ℕ → ℚ)
    (key_start nkib : ℕ) (emit1 emit2 trA : Bool) :
    (emit1 = true →
      (runDOIVJEpilogue scale c dSij emit1 emit2 trA).bias1Out = some dSij) ∧
    (emit2 = true →
      (runDOIVJEpilogue scale c dSij emit1 emit2 trA).bias2Out = some dSij) ∧
    (runDOIVJEpilogue scale c dSij emit1 emit2 trA).tmpOut =
      some (fun q k => c (dSij q k * scale)) ∧
    (∀ q f,
      gradQContribution
          ((runDOIVJEpilogue scale c dSij emit1 emit2 trA).tmpOut.getD fun _ _ => 0)
          Kmat key_start nkib q f =
        ∑ k ∈ Finset.range nkib, c (dSij q k * scale) * Kmat (key_start + k) f) := by
  cases emit1 <;> cases emit2 <;> cases trA <;>
    simp [runDOIVJEpilogue, doivjStepList, doivjStep, gradQContribution]

/-- Witness for the C5 theorem: both bias gradients requested; checks the
unscaled bias operand. -/
theorem doivjEpilogue_witness :
    (runDOIVJEpilogue 2 id (fun _ _ => 1) true true false).bias1Out =
      some (fun _ _ => (1 : ℚ)) :=
  (doivjEpilogue_spec 2 id (fun _ _ => 1) (fun _ _ => 0) 0 0 true true false).1 rfl

/-- **C10**: per configuration, the pre-transposed tile is produced exactly
when `kIsTransposedA` is false (the untransposed tile is consumed transposed
exactly when it is true) — never both — and both choices yield numerically
identical key-gradient contributions. -/
theorem gradK_operand_choice (scale : ℚ) (c : ℚ → ℚ) (dSij Qmat : ℕ → ℕ → ℚ)
    (query_start nqib : ℕ) (emit1 emit2 : Bool) :
    (∀ trA : Bool,
      (runDOIVJEpilogue scale c dSij emit1 emit2 trA).tmpTOut.isSome = !trA) ∧
    (∀ (trA : Bool) (k f : ℕ),
      gradKContribution trA (runDOIVJEpilogue scale c dSij emit1 emit2 trA) Qmat
          query_start nqib k f =
        ∑ q ∈ Finset.range nqib, c (dSij q k * scale) * Qmat (query_start + q) f) := by
  constructor
  · intro trA
    cases emit1 <;> cases emit2 <;> cases trA <;>
      simp [runDOIVJEpilogue, doivjStepList, doivjStep]
  · intro trA k f
    cases emit1 <;> cases emit2 <;> cases trA <;>
      simp [runDOIVJEpilogue, doivjStepList, doivjStep, gradKContribution,
        gradKOperandA]

theorem le_ceilDiv_mul (b s : ℕ) (hs : 0 < s) : b ≤ ceilDiv b s * s := by
  have hdm := Nat.div_add_mod' b s
  have hmlt : b % s < s := Nat.mod_lt b hs
  rw [ceilDiv_eq_cases b s hs]
  by_cases h : b % s = 0
  · rw [if_pos h, Nat.add_zero]
    omega
  · rw [if_neg h, Nat.add_mul, Nat.one_mul]
    omega

theorem lt_ceilDiv_of_mul_lt (a b s : ℕ) (hs : 0 < s) (h : a * s < b) :
    a < ceilDiv b s := by
  by_contra hc
  push_neg at hc
  have h2 : b ≤ ceilDiv b s * s := le_ceilDiv_mul b s hs
  have h3 : ceilDiv b s * s ≤ a * s := Nat.mul_le_mul_right s hc
  omega

theorem zfillWrites_cover (T kBJ nk ext ks strideM key c : ℕ)
    (hT8 : T % 8 = 0) (hT : 0 < T) (hk1 : ks ≤ key) (hk2 : key < ks + kBJ)
    (hk3 : key < nk) (hc : c < ext) :
    key * strideM + c ∈
      (List.range T).flatMap (zfillThreadWrites T kBJ nk ext false ks strideM) := by
  have h8T : 8 * (T / 8) = T := Nat.mul_div_cancel' (Nat.dvd_of_mod_eq_zero hT8)
  set kP := T / 8 with hkPdef
  have hkP : 0 < kP := by omega
  set d := key - ks with hd
  set tid := 8 * (d % kP) + c % 8 with htid
  have hdmod : d % kP < kP := Nat.mod_lt d hkP
  have htidlt : tid < T := by omega
  have htid8 : tid / 8 = d % kP := by omega
  have hshift : tid % 32 % 8 = c % 8 := by omega
  rw [List.mem_flatMap]
  refine ⟨tid, List.mem_range.mpr htidlt, ?_⟩
  unfold zfillThreadWrites kThreadsPerKey
  rw [forLoop_eq kP hkP (kBJ + 1) 0 kBJ (by omega)]
  rw [List.mem_flatMap]
  have hddm := Nat.div_add_mod' d kP
  refine ⟨d / kP * kP, ?_, ?_⟩
  · simp only [Nat.sub_zero, List.mem_map, List.mem_range]
    exact ⟨d / kP, lt_ceilDiv_of_mul_lt _ _ _ hkP (by omega), by omega⟩
  · have hkey : ks + d / kP * kP + tid / 8 = key := by omega
    rw [htid8] at hkey ⊢
    rw [hkey]
    rw [if_neg (by omega)]
    rw [hshift]
    rw [forLoop_eq 8 (by omega) (ext + 1) (c % 8) ext (by omega), List.map_map,
      List.mem_map]
    have hcdm := Nat.div_add_mod' c 8
    refine ⟨c / 8, ?_, by simp only [Function.comp_apply]; omega⟩
    simp only [List.mem_range]
    exact lt_ceilDiv_of_mul_lt _ _ _ (by omega) (by omega)

/-- **C7**: for a key tile that receives no query contributions (its starting
query offset, `getQueryStart`, is at or past the query count) in a
configuration that does not keep gradients in registers
(`kOutputInRF = false`), `zfillGradKV` explicitly writes exactly zero to
every in-range element of the GradValue and GradKey rows of that key tile —
every valid key row and every feature column — rather than leaving them
unmodified. -/
theorem zfillGradKV_zeroes (T kBJ nk hdv hd ks gvS gkS nq kMaxK kBI : ℕ)
    (isHalf : Bool) (mGV mGK : ℕ → ℚ)
    (hT8 : T % 8 = 0) (hT : 0 < T)
    (hRF : kOutputInRF isHalf kMaxK kBI = false)
    (hempty : nq ≤ getQueryStart nq ks) :
    ∀ key c, ks ≤ key → key < ks + kBJ → key < nk →
      ((c < hdv →
        memAfterZfill (zfillGradKV_gvWrites T kBJ nk hdv false ks gvS) mGV
          (key * gvS + c) = 0) ∧
       (c < hd →
        memAfterZfill (zfillGradKV_gkWrites T kBJ nk hd false ks gkS) mGK
          (key * gkS + c) = 0)) := by
  intro key c hk1 hk2 hk3
  constructor
  · intro hc
    unfold memAfterZfill zfillGradKV_gvWrites
    rw [if_pos (zfillWrites_cover T kBJ nk hdv ks gvS key c hT8 hT hk1 hk2 hk3 hc)]
  · intro hc
    unfold memAfterZfill zfillGradKV_gkWrites
    rw [if_pos (zfillWrites_cover T kBJ nk hd ks gkS key c hT8 hT hk1 hk2 hk3 hc)]

/-- Witness for the C7 theorem: 32 threads, an 8-key tile at key offset 0 of
9 keys, feature extents 3 and 2, zero queries (so `getQueryStart ≥ nq`),
checked at key 1, column 1. -/
theorem zfillGradKV_witness :
    memAfterZfill (zfillGradKV_gvWrites 32 8 9 3 false 0 16) (fun _ => 7)
        (1 * 16 + 1) = 0 ∧
    memAfterZfill (zfillGradKV_gkWrites 32 8 9 2 false 0 8) (fun _ => 7)
        (1 * 8 + 1) = 0 := by
  have h := zfillGradKV_zeroes 32 8 9 3 2 0 16 8 0 64 32 false (fun _ => 7) (fun _ => 7)
    (by decide) (by decide) (by decide) (by decide) 1 1 (by decide) (by decide) (by decide)
  exact ⟨h.1 (by decide), h.2 (by decide)⟩

/-- **C6**: with dropout enabled, the regenerated mask tile is a
deterministic function of the seed/offset scheme and the (batch, head,
query-tile, key-tile) coordinate: any two executions agreeing on the seed,
the tensor dimensions and the coordinate regenerate identical mask tiles,
and the backward tile equals the tile drawn by the forward pass from the
same scheme, without the mask ever being stored. -/
theorem regeneratedMaskTile_deterministic
    (gen : ℕ → ℕ → ℕ → ℕ → ℕ → ℕ → Bool)
    (seed1 seed2 nh1 nh2 nq1 nq2 nk1 nk2 b1 b2 hid1 hid2 qs1 qs2 ks1 ks2 : ℕ)
    (hseed : seed1 = seed2) (hnh : nh1 = nh2) (hnq : nq1 = nq2)
    (hnk : nk1 = nk2) (hb : b1 = b2) (hh : hid1 = hid2) (hqs : qs1 = qs2)
    (hks : ks1 = ks2) :
    ∀ q k,
      regeneratedMaskTile gen seed1 nh1 nq1 nk1 b1 hid1 qs1 ks1 q k =
        forwardMaskTile gen seed2 nh2 nq2 nk2 b2 hid2 qs2 ks2 q k := by
  subst hseed hnh hnq hnk hb hh hqs hks
  intro q k
  rfl

/-- Witness for the C6 theorem at a concrete generator and coordinate. -/
theorem regeneratedMaskTile_witness :
    regeneratedMaskTile (fun a b cc dd ee ff => decide ((a + b + cc + dd + ee + ff) % 2 = 0))
        3 2 5 7 1 0 4 8 0 0 =
      forwardMaskTile (fun a b cc dd ee ff => decide ((a + b + cc + dd + ee + ff) % 2 = 0))
        3 2 5 7 1 0 4 8 0 0 :=
  regeneratedMaskTile_deterministic
    (fun a b cc dd ee ff => decide ((a + b + cc + dd + ee + ff) % 2 = 0))
    3 3 2 2 5 5 7 7 1 1 0 0 4 4 8 8 rfl rfl rfl rfl rfl rfl rfl rfl 0 0

end EvoBackward
